import Mathlib

/-!
Verification of the pkgsite frontend core: identity resolution, fetch
orchestration, cache policy, and redirect rules.

Go strings are embedded as `List Char` (or `String` where convenient);
machine integers that matter (HTTP status codes, counters) are `Nat`.
Functions present in `src/` are translated directly from the source;
functions whose implementation is absent from `src/` (only their tests or
callers are present) are modelled from the specification and say so in
their doc comments.
-/

/-! ## Cache policy (CachePolicyEngine / detailsTTL) -/

/-- The ordered set of cache-lifetime classes (`Tiny < Short < Default < Long`),
mirroring the `tinyTTL`/`shortTTL`/`defaultTTL`/`longTTL` durations used by
`TestDetailsTTL` in `server_test.go`. -/
inductive TTLClass where
  | tiny
  | short
  | default
  | long
deriving DecidableEq, BEq, Repr

/-- Modelled from the spec: the set of tabs whose content depends on
externally-changing aggregate state (importer counts, version lists);
the concrete members come from the `tab=versions` / `tab=importedby`
rows of `TestDetailsTTL`. -/
def aggregateTab : Option String → Bool
  | some t => t == "versions" || t == "importedby"
  | none => false

/-- Modelled from the spec: the tab is absent or is the default overview tab. -/
def overviewOrAbsent : Option String → Bool
  | none => true
  | some t => t == "overview"

/-- Modelled from the spec: `CachePolicyEngine.Decide` (the implementation,
`detailsTTL`, is not under `src/`; only `TestDetailsTTL` is).  Decision
precedence, highest first: automated agent → Tiny; aggregate-state tab →
Default; version-pinned with absent/overview tab → Long; otherwise Short. -/
def decideTTL (isBot : Bool) (tab : Option String) (versioned : Bool) : TTLClass :=
  if isBot then .tiny
  else if aggregateTab tab then .default
  else if versioned && overviewOrAbsent tab then .long
  else .short

/-- Split a character list on a separator character.  Used to embed the
URL-shape extraction that `detailsTTL` performs on `r.URL.Path` and the
`tab` form value. -/
def splitOnChar (c : Char) : List Char → List (List Char)
  | [] => [[]]
  | a :: rest =>
      let r := splitOnChar c rest
      if a = c then [] :: r
      else
        match r with
        | [] => [[a]]
        | h :: t => (a :: h) :: t

/-- The path part of a request URL: everything before the first `?`. -/
def urlPathPart (url : List Char) : List Char :=
  url.takeWhile (fun c => c ≠ '?')

/-- The query part of a request URL: everything after the first `?`. -/
def urlQueryPart (url : List Char) : List Char :=
  (url.dropWhile (fun c => c ≠ '?')).drop 1

/-- The value of the `tab` query parameter, if present. -/
def requestTab (url : List Char) : Option String :=
  (splitOnChar '&' (urlQueryPart url)).findSome? fun p =>
    if ['t', 'a', 'b', '='].isPrefixOf p then some (String.mk (p.drop 4)) else none

/-- Whether the request pins an explicit version: the path part carries an
`@version` qualifier. -/
def requestVersioned (url : List Char) : Bool :=
  (urlPathPart url).any (fun c => c = '@')

/-- The TTL decision on a raw request URL plus the client-identity bit,
composing the URL-shape extraction with the spec-modelled decision table. -/
def detailsTTLModel (url : String) (isBot : Bool) : TTLClass :=
  decideTTL isBot (requestTab url.data) (requestVersioned url.data)

/-- The rows of `TestDetailsTTL` from `server_test.go`: request URL, whether
the request's user agent marks an automated agent, and the expected TTL
class. -/
def detailsTTLTestRows : List (String × Bool × TTLClass) :=
  [ ("/host.com/module@v1.2.3/suffix", false, .long),
    ("/host.com/module/suffix", false, .short),
    ("/host.com/module@v1.2.3/suffix?tab=overview", false, .long),
    ("/host.com/module@v1.2.3/suffix?tab=versions", false, .default),
    ("/host.com/module@v1.2.3/suffix?tab=importedby", false, .default),
    ("/mod/host.com/module@v1.2.3/suffix", false, .long),
    ("/mod/host.com/module/suffix", false, .short),
    ("/mod/host.com/module@v1.2.3/suffix?tab=overview", false, .long),
    ("/mod/host.com/module@v1.2.3/suffix?tab=versions", false, .default),
    ("/mod/host.com/module@v1.2.3/suffix?tab=importedby", false, .default),
    ("/host.com/module@v1.2.3/suffix?tab=overview", true, .tiny) ]

/-- Claim C1: the cache-TTL decision maps request shape to TTL class exactly
as the decision table states: an automated agent yields Tiny regardless of
version pinning or tab; otherwise an aggregate-state tab (versions,
importedby) yields Default even when version-pinned; otherwise a
version-pinned request on the absent/overview tab yields Long; otherwise
(unversioned) Short.  The final conjunct checks the model against every row
of `TestDetailsTTL`. -/
theorem decideTTL_table (isBot : Bool) (tab : Option String) (versioned : Bool) :
    (isBot = true → decideTTL isBot tab versioned = .tiny) ∧
    (isBot = false → aggregateTab tab = true → decideTTL isBot tab versioned = .default) ∧
    (isBot = false → aggregateTab tab = false → versioned = true →
      overviewOrAbsent tab = true → decideTTL isBot tab versioned = .long) ∧
    (isBot = false → aggregateTab tab = false → versioned = false →
      decideTTL isBot tab versioned = .short) ∧
    detailsTTLTestRows.all (fun r => detailsTTLModel r.1 r.2.1 == r.2.2) = true := by
  refine ⟨?_, ?_, ?_, ?_, by decide⟩ <;> intro h <;> simp [decideTTL, h] <;> intro h2 <;>
    simp_all

/-- Witness for C1: the decision table evaluated at one concrete input per
row, with every hypothesis discharged on concrete values. -/
theorem decideTTL_table_witness :
    decideTTL true (some "overview") true = TTLClass.tiny ∧
    decideTTL false (some "versions") true = TTLClass.default ∧
    decideTTL false none true = TTLClass.long ∧
    decideTTL false (some "overview") false = TTLClass.short :=
  ⟨(decideTTL_table true (some "overview") true).1 rfl,
   (decideTTL_table false (some "versions") true).2.1 rfl (by decide),
   (decideTTL_table false none true).2.2.1 rfl (by decide) rfl (by decide),
   (decideTTL_table false (some "overview") false).2.2.2.1 rfl (by decide) rfl⟩

/-! ## internal.Suffix (client.go, package internal) -/

/-- Go `strings.TrimPrefix` embedded on character lists: remove `pre` from
the front of `s` when it is a prefix, otherwise return `s` unchanged. -/
def trimPrefixGo (s pre : List Char) : List Char :=
  if pre.isPrefixOf s then s.drop pre.length else s

/-- `internal.Suffix` from the source:
`strings.TrimPrefix(strings.TrimPrefix(fullPath, basePath), "/")`. -/
def Suffix (fullPath basePath : List Char) : List Char :=
  trimPrefixGo (trimPrefixGo fullPath basePath) ['/']

theorem isPrefixOf_append_self (l x : List Char) : l.isPrefixOf (l ++ x) = true := by
  induction l with
  | nil => simp [List.isPrefixOf]
  | cons a t ih => simp [List.isPrefixOf, ih]

theorem isPrefixOf_self (l : List Char) : l.isPrefixOf l = true := by
  induction l with
  | nil => simp [List.isPrefixOf]
  | cons a t ih => simp [List.isPrefixOf, ih]

/-- Claim C10: when `basePath` is a proper prefix of `fullPath` followed by
`/`, `Suffix fullPath basePath` is the remainder of `fullPath` after
`basePath` with the leading `/` removed; and `Suffix p p` is the empty
string. -/
theorem Suffix_spec :
    (∀ basePath rest : List Char, Suffix (basePath ++ '/' :: rest) basePath = rest) ∧
    (∀ p : List Char, Suffix p p = []) := by
  constructor
  · intro b r
    have h1 : trimPrefixGo (b ++ '/' :: r) b = '/' :: r := by
      simp [trimPrefixGo, isPrefixOf_append_self]
    simp [Suffix, h1, trimPrefixGo, List.isPrefixOf]
  · intro p
    have h1 : trimPrefixGo p p = [] := by
      simp [trimPrefixGo, isPrefixOf_self]
    simp [Suffix, h1, trimPrefixGo, List.isPrefixOf]

/-! ## Redirector (Route) -/

/-- A redirect decision: permanent (301), found (302), or no redirect. -/
inductive Redirect where
  | permanent (location : List Char)
  | found (location : List Char)
  | noRedirect
deriving DecidableEq, BEq, Repr

/-- Association-table lookup by exact key equality. -/
def lookupTable : List (List Char × List Char) → List Char → Option (List Char)
  | [], _ => none
  | p :: rest, k => if p.1 = k then some p.2 else lookupTable rest k

/-- Modelled from the spec: the table of legacy top-level aliases with fixed
external targets; its one evidenced member comes from the `"C"` row of
`serverTestCases` (the mux registration itself is not under `src/`). -/
def legacyAliases : List (List Char × List Char) :=
  [("C".data, "https://golang.org/doc/articles/c_go_cgo.html".data)]

/-- Modelled from the spec: the fixed table of standard-library import-path
shortcuts; its one evidenced member comes from the `/http` rows of
`serverTestCases`. -/
def stdlibShortcuts : List (List Char × List Char) :=
  [("http".data, "net/http".data)]

/-- Remove one trailing `/` if present. -/
def stripTrailingSlash (p : List Char) : List Char :=
  if p.getLast? = some '/' then p.dropLast else p

/-- The shortcut lookup key of a request path (leading `/` already removed):
everything before an `@version` qualifier, with a trailing slash stripped. -/
def shortcutKey (p : List Char) : List Char :=
  stripTrailingSlash (p.takeWhile (fun c => c ≠ '@'))

/-- Modelled from the spec: `Redirector.Route` (the handler code is not under
`src/`; only `serverTestCases` is).  Rules checked in order: (1) legacy
top-level alias → permanent redirect to its fixed external target;
(2) standard-library shortcut → found redirect to the canonical full path;
(3) a query parameter selecting the default tab → found redirect to the bare
path; (4) otherwise no redirect. -/
def Route (urlPath : List Char) : Redirect :=
  match lookupTable legacyAliases (urlPath.drop 1) with
  | some target => .permanent target
  | none =>
    match lookupTable stdlibShortcuts (shortcutKey ((urlPathPart urlPath).drop 1)) with
    | some canonical => .found ('/' :: canonical)
    | none =>
      if requestTab urlPath = some "doc" then .found (urlPathPart urlPath)
      else .noRedirect

/-- The HTTP status code and `Location` header of a redirect decision. -/
def redirectStatus : Redirect → Option (Nat × List Char)
  | .permanent l => some (301, l)
  | .found l => some (302, l)
  | .noRedirect => none

/-- One row of `serverTestCases` from `server_test.go`. -/
structure ServerTestCase where
  name : String
  urlPath : String
  wantStatusCode : Nat
  wantLocation : String
deriving DecidableEq, BEq, Repr

/-- The redirect-producing rows of `serverTestCases`, copied from the
source (`http.StatusMovedPermanently = 301`, `http.StatusFound = 302`). -/
def redirectRows : List ServerTestCase :=
  [ ⟨"C", "/C", 301, "https://golang.org/doc/articles/c_go_cgo.html"⟩,
    ⟨"stdlib shortcut (net/http)", "/http", 302, "/net/http"⟩,
    ⟨"stdlib shortcut (net/http) strip args", "/http@go1.13", 302, "/net/http"⟩,
    ⟨"stdlib shortcut with trailing slash", "/http/", 302, "/net/http"⟩,
    ⟨"stdlib shortcut with args and trailing slash", "/http@go1.13/", 302, "/net/http"⟩ ]

/-- Modelled from the spec's words, for comparison with the source's test
expectations: the version qualifier (from `@` on) of a request path with the
leading `/` already removed, trailing slash stripped. -/
def versionQualifierOf (p : List Char) : List Char :=
  (stripTrailingSlash p).dropWhile (fun c => c ≠ '@')

/-- Modelled from the spec's words, for comparison with the source's test
expectations: a shortcut redirect that preserves any version qualifier of
the request, as the claim states. -/
def routePreservingVersion (urlPath : List Char) : Redirect :=
  match lookupTable stdlibShortcuts (shortcutKey (urlPath.drop 1)) with
  | some canonical => .found ('/' :: canonical ++ versionQualifierOf (urlPath.drop 1))
  | none => .noRedirect

/-- Counterexample to C2 as stated: on the request `/http@go1.13`, a redirect
preserving the version qualifier would send `/net/http@go1.13`, but the
source's test table demands `Location: /net/http` — the qualifier is
stripped, not preserved. -/
theorem shortcut_preserving_cex :
    redirectRows[2]? = some ⟨"stdlib shortcut (net/http) strip args", "/http@go1.13", 302, "/net/http"⟩ ∧
    routePreservingVersion "/http@go1.13".data = Redirect.found "/net/http@go1.13".data ∧
    "/net/http@go1.13".data ≠ "/net/http".data := by
  decide

/-- Claim C2 (amended): for every standard-library shortcut request the
Redirector emits a 302 (Found) redirect to the canonical full path,
stripping any version qualifier and stripping a trailing slash.  First
conjunct: the model reproduces every shortcut row of `serverTestCases`;
second conjunct: for every version qualifier `v`, `/http@v` redirects to
`/net/http`. -/
theorem shortcut_redirect_strips :
    ((redirectRows.drop 1).all fun r =>
      redirectStatus (Route r.urlPath.data) == some (r.wantStatusCode, r.wantLocation.data)) = true ∧
    ∀ v : List Char,
      Route ('/' :: 'h' :: 't' :: 't' :: 'p' :: '@' :: v) = Redirect.found "/net/http".data := by
  refine ⟨by decide, ?_⟩
  intro v
  simp [Route, lookupTable, legacyAliases, stdlibShortcuts, shortcutKey, stripTrailingSlash,
    urlPathPart, List.takeWhile, requestTab, urlQueryPart, splitOnChar]

/-- Claim C8: a registered legacy top-level alias produces a permanent (301)
redirect to its fixed external target, and this rule is checked before all
other redirect rules (any path whose alias lookup succeeds gets the
permanent redirect, whatever the other rules would say); concretely, `/C`
redirects permanently to `https://golang.org/doc/articles/c_go_cgo.html`,
matching the `"C"` row of `serverTestCases`. -/
theorem route_legacy_alias (p target : List Char)
    (h : lookupTable legacyAliases (p.drop 1) = some target) :
    Route p = Redirect.permanent target := by
  rw [List.drop_one] at h
  simp [Route, h]

/-- Witness for C8: the alias rule applied at the concrete request `/C`,
which is exactly the `"C"` row of `serverTestCases`. -/
theorem route_legacy_alias_witness :
    Route "/C".data = Redirect.permanent "https://golang.org/doc/articles/c_go_cgo.html".data ∧
    redirectRows[0]? = some ⟨"C", "/C", 301, "https://golang.org/doc/articles/c_go_cgo.html"⟩ :=
  ⟨route_legacy_alias "/C".data "https://golang.org/doc/articles/c_go_cgo.html".data (by decide),
   by decide⟩

/-! ## FetchOrchestrator (task table and Schedule) -/

/-- The lifecycle states of a `FetchTask` from the data model:
`Pending | Running | Succeeded | Failed(retryable)`. -/
inductive TaskStatus where
  | pending
  | running
  | succeeded
  | failed (retryable : Bool)
deriving DecidableEq, BEq, Repr

/-- A fetch task: status, attempt count, and next-eligible time
(timestamps are `Nat`). -/
structure FetchTask where
  status : TaskStatus
  attempts : Nat
  nextEligibleAt : Nat
deriving DecidableEq, BEq, Repr

/-- The dedup key `(modulePath, version)`. -/
abbrev FetchKey := List Char × List Char

/-- The in-memory task-state table: key → FetchTask, as an association list. -/
abbrev TaskTable := List (FetchKey × FetchTask)

def lookupTask : TaskTable → FetchKey → Option FetchTask
  | [], _ => none
  | p :: rest, k => if p.1 = k then some p.2 else lookupTask rest k

def setTask : TaskTable → FetchKey → FetchTask → TaskTable
  | [], k, t => [(k, t)]
  | p :: rest, k, t => if p.1 = k then (k, t) :: rest else p :: setTask rest k t

/-- Modelled from the spec: `FetchOrchestrator.Schedule` (the queue
implementation is not under `src/`; only its construction in `newTestServer`
is).  Running/Succeeded/Pending → no-op (coalesced); absent → create a
Pending task; Failed-retryable → Pending only once the backoff window has
elapsed; Failed-permanent → no-op.  The spec's single-mutation-path
serialization makes each call one atomic step. -/
def schedule (now : Nat) (tbl : TaskTable) (k : FetchKey) : TaskTable :=
  match lookupTask tbl k with
  | none => setTask tbl k ⟨.pending, 0, now⟩
  | some task =>
    match task.status with
    | .pending => tbl
    | .running => tbl
    | .succeeded => tbl
    | .failed true =>
        if task.nextEligibleAt ≤ now then setTask tbl k ⟨.pending, task.attempts, task.nextEligibleAt⟩
        else tbl
    | .failed false => tbl

/-- The atomic operations on one key that can interleave under the
orchestrator's serialized mutation path: a `Schedule` call, a worker
starting the pending task (the fetch callback fires exactly here), and the
running execution completing successfully. -/
inductive FetchOp where
  | sched
  | start
  | finish
deriving DecidableEq, Repr

/-- One atomic step; the second component is 1 when the fetch callback
fired during the step. -/
def stepOp (now : Nat) (k : FetchKey) (tbl : TaskTable) : FetchOp → TaskTable × Nat
  | .sched => (schedule now tbl k, 0)
  | .start =>
    match lookupTask tbl k with
    | some task =>
        if task.status = .pending then (setTask tbl k ⟨.running, task.attempts + 1, task.nextEligibleAt⟩, 1)
        else (tbl, 0)
    | none => (tbl, 0)
  | .finish =>
    match lookupTask tbl k with
    | some task =>
        if task.status = .running then (setTask tbl k ⟨.succeeded, task.attempts, task.nextEligibleAt⟩, 0)
        else (tbl, 0)
    | none => (tbl, 0)

/-- Run a sequence of atomic steps, totalling the callback executions. -/
def runOps (now : Nat) (k : FetchKey) (tbl : TaskTable) : List FetchOp → TaskTable × Nat
  | [] => (tbl, 0)
  | op :: rest =>
    let s := stepOp now k tbl op
    let r := runOps now k s.1 rest
    (r.1, s.2 + r.2)

theorem lookupTask_setTask_self (tbl : TaskTable) (k : FetchKey) (t : FetchTask) :
    lookupTask (setTask tbl k t) k = some t := by
  induction tbl with
  | nil => simp [setTask, lookupTask]
  | cons p rest ih =>
    by_cases h : p.1 = k <;> simp [setTask, lookupTask, h, ih]

theorem runOps_append (now : Nat) (k : FetchKey) (xs ys : List FetchOp) :
    ∀ tbl : TaskTable,
      runOps now k tbl (xs ++ ys) =
        ((runOps now k (runOps now k tbl xs).1 ys).1,
         (runOps now k tbl xs).2 + (runOps now k (runOps now k tbl xs).1 ys).2) := by
  induction xs with
  | nil => intro tbl; simp [runOps]
  | cons op rest ih =>
    intro tbl
    simp [runOps, ih, Nat.add_assoc]

/-- Once the key's task is Running or Succeeded, no further operation fires
the callback again, and the task stays Running or Succeeded. -/
theorem runOps_inflight (now : Nat) (k : FetchKey) :
    ∀ (ops : List FetchOp) (tbl : TaskTable) (t : FetchTask),
      lookupTask tbl k = some t → (t.status = .running ∨ t.status = .succeeded) →
      (runOps now k tbl ops).2 = 0 ∧
      ∃ u, lookupTask (runOps now k tbl ops).1 k = some u ∧
        (u.status = .running ∨ u.status = .succeeded) := by
  intro ops
  induction ops with
  | nil => intro tbl t h hs; exact ⟨rfl, t, h, hs⟩
  | cons op rest ih =>
    intro tbl t h hs
    match op with
    | .sched =>
      have hsched : schedule now tbl k = tbl := by
        rcases hs with hs | hs <;> simp [schedule, h, hs]
      have := ih tbl t h hs
      simpa [runOps, stepOp, hsched] using this
    | .start =>
      have hstatus : (t.status = TaskStatus.pending) = False := by
        rcases hs with hs | hs <;> simp [hs]
      have := ih tbl t h hs
      simpa [runOps, stepOp, h, hstatus] using this
    | .finish =>
      rcases hs with hs | hs
      · -- running: completes to succeeded
        have hstep : stepOp now k tbl .finish =
            (setTask tbl k ⟨.succeeded, t.attempts, t.nextEligibleAt⟩, 0) := by
          simp [stepOp, h, hs]
        have hlook := lookupTask_setTask_self tbl k ⟨.succeeded, t.attempts, t.nextEligibleAt⟩
        have := ih _ _ hlook (Or.inr rfl)
        simpa [runOps, hstep] using this
      · -- succeeded: no-op
        have hstatus : (t.status = TaskStatus.running) = False := by simp [hs]
        have := ih tbl t h (Or.inr hs)
        simpa [runOps, stepOp, h, hstatus] using this

/-- From a state where the key is absent or Pending, any interleaving of
operations fires the callback at most once. -/
theorem runOps_le_one (now : Nat) (k : FetchKey) :
    ∀ (ops : List FetchOp) (tbl : TaskTable),
      (lookupTask tbl k = none ∨
        ∃ t, lookupTask tbl k = some t ∧ t.status = .pending) →
      (runOps now k tbl ops).2 ≤ 1 := by
  intro ops
  induction ops with
  | nil => intro tbl _; simp [runOps]
  | cons op rest ih =>
    intro tbl h
    match op with
    | .sched =>
      rcases h with h | ⟨t, h, ht⟩
      · have hstep : schedule now tbl k = setTask tbl k ⟨.pending, 0, now⟩ := by
          simp [schedule, h]
        have hrec := ih (setTask tbl k ⟨.pending, 0, now⟩)
          (Or.inr ⟨_, lookupTask_setTask_self tbl k _, rfl⟩)
        simpa [runOps, stepOp, hstep] using hrec
      · have hstep : schedule now tbl k = tbl := by simp [schedule, h, ht]
        have hrec := ih tbl (Or.inr ⟨t, h, ht⟩)
        simpa [runOps, stepOp, hstep] using hrec
    | .start =>
      rcases h with h | ⟨t, h, ht⟩
      · have hrec := ih tbl (Or.inl h)
        simpa [runOps, stepOp, h] using hrec
      · have hfired := runOps_inflight now k rest
          (setTask tbl k ⟨.running, t.attempts + 1, t.nextEligibleAt⟩)
          ⟨.running, t.attempts + 1, t.nextEligibleAt⟩
          (lookupTask_setTask_self tbl k _) (Or.inl rfl)
        simp [runOps, stepOp, h, ht, hfired.1]
    | .finish =>
      rcases h with h | ⟨t, h, ht⟩
      · have hrec := ih tbl (Or.inl h)
        simpa [runOps, stepOp, h] using hrec
      · have hstatus : (t.status = TaskStatus.running) = False := by simp [ht]
        have hrec := ih tbl (Or.inr ⟨t, h, ht⟩)
        simpa [runOps, stepOp, h, hstatus] using hrec

/-- Repeated `Schedule` calls on a Pending key change nothing. -/
theorem runOps_sched_pending (now : Nat) (k : FetchKey) :
    ∀ (n : Nat) (tbl : TaskTable) (t : FetchTask),
      lookupTask tbl k = some t → t.status = .pending →
      runOps now k tbl (List.replicate n .sched) = (tbl, 0) := by
  intro n
  induction n with
  | zero => intro tbl t _ _; simp [runOps]
  | succ m ih =>
    intro tbl t h ht
    have hstep : schedule now tbl k = tbl := by simp [schedule, h, ht]
    simp [List.replicate, runOps, stepOp, hstep, ih tbl t h ht]

/-- Claim C3: for a key with no prior task, any serialized order of N
concurrent `Schedule(k)` calls followed by the worker pickup fires the fetch
callback exactly once (first conjunct); any interleaving at all of
schedules, worker starts and completions fires it at most once (second
conjunct); and a `Schedule` call while an execution is in flight is a no-op
coalesced into it (third conjunct). -/
theorem schedule_coalescing (now N : Nat) (k : FetchKey) (tbl : TaskTable)
    (hN : 1 ≤ N) (h0 : lookupTask tbl k = none) :
    (runOps now k tbl (List.replicate N .sched ++ [.start])).2 = 1 ∧
    (∀ ops : List FetchOp, (runOps now k tbl ops).2 ≤ 1) ∧
    (∀ (tbl2 : TaskTable) (t : FetchTask), lookupTask tbl2 k = some t →
      t.status = .running → schedule now tbl2 k = tbl2) := by
  refine ⟨?_, fun ops => runOps_le_one now k ops tbl (Or.inl h0),
    fun tbl2 t h ht => by simp [schedule, h, ht]⟩
  obtain ⟨m, rfl⟩ : ∃ m, N = m + 1 := ⟨N - 1, by omega⟩
  have hstep : schedule now tbl k = setTask tbl k ⟨.pending, 0, now⟩ := by
    simp [schedule, h0]
  have hpend := lookupTask_setTask_self tbl k (⟨.pending, 0, now⟩ : FetchTask)
  have hreps := runOps_sched_pending now k m (setTask tbl k ⟨.pending, 0, now⟩) _ hpend rfl
  have happ := runOps_append now k (List.replicate m .sched) [.start]
    (setTask tbl k ⟨.pending, 0, now⟩)
  rw [List.replicate_succ, List.cons_append]
  simp [runOps, stepOp, hstep, happ, hreps, hpend]

/-- Witness for C3: three schedules of a fresh key then one worker pickup
fire the callback exactly once. -/
theorem schedule_coalescing_witness :
    (runOps 0 ("example.com/unknown".data, "latest".data) []
      (List.replicate 3 .sched ++ [.start])).2 = 1 :=
  (schedule_coalescing 0 3 ("example.com/unknown".data, "latest".data) [] (by decide) rfl).1

/-! ## Request handling: excluded, unknown, malformed version (serveDetails) -/

/-- The HTTP-level outcome of resolving a unit request. -/
inductive HandleResult where
  | ok
  | notFound
  | badRequest (searchLink : List Char)
deriving DecidableEq, BEq, Repr

/-- The HTTP status code of a handling outcome (`200`, `404`, `400`). -/
def statusOf : HandleResult → Nat
  | .ok => 200
  | .notFound => 404
  | .badRequest _ => 400

/-- Consume a nonempty run of decimal digits, returning the remainder,
or `none` when no digit leads. -/
def numThen (l : List Char) : Option (List Char) :=
  if (l.takeWhile Char.isDigit).isEmpty then none
  else some (l.dropWhile Char.isDigit)

/-- Modelled from the spec: a syntactically valid (possibly pseudo, possibly
`+incompatible`) semantic version: `v` MAJOR `.` MINOR `.` PATCH with an
optional nonempty `-prerelease` (which covers pseudo-versions) or `+build`
(which covers `+incompatible`) tail. -/
def isValidSemver : List Char → Bool
  | 'v' :: rest =>
    match numThen rest with
    | none => false
    | some r1 =>
      match r1 with
      | '.' :: r1a =>
        match numThen r1a with
        | none => false
        | some r2 =>
          match r2 with
          | '.' :: r2a =>
            match numThen r2a with
            | none => false
            | some r3 =>
              match r3 with
              | [] => true
              | '-' :: pre => !pre.isEmpty
              | '+' :: build => !build.isEmpty
              | _ => false
          | _ => false
      | _ => false
  | _ => false

/-- Modelled from the spec: `VersionResolver.Parse` succeeds exactly on
`"latest"`, `"master"`, or a syntactically valid semantic version. -/
def isValidVersion (v : List Char) : Bool :=
  v = "latest".data || v = "master".data || isValidSemver v

/-- Escape a path for use inside a query string, writing `/` as `%2f`
(lower-case, as in the `bad version` row of `serverTestCases`). -/
def escapePathQuery : List Char → List Char
  | [] => []
  | c :: rest => (if c = '/' then ['%', '2', 'f'] else [c]) ++ escapePathQuery rest

/-- Modelled from the spec: the suggested search-query fallback link carried
by a BadRequest response — the unescaped request path composed into a
`/search?q=` query string. -/
def searchLink (fullPath : List Char) : List Char :=
  "/search?q=".data ++ escapePathQuery fullPath

/-- Whether the request path falls under an administratively excluded prefix. -/
def isExcluded (excludedPrefixes : List (List Char)) (fullPath : List Char) : Bool :=
  excludedPrefixes.any (fun p => p.isPrefixOf fullPath)

/-- Whether an optional explicit version is acceptable (an absent version
means "latest" and is always well-formed). -/
def versionOk : Option (List Char) → Bool
  | none => true
  | some v => isValidVersion v

/-- Whether the requested identity is already known to storage. -/
def knownIdentity (known : List FetchKey) (fullPath : List Char) :
    Option (List Char) → Bool
  | none => known.any (fun q => q.1 = fullPath)
  | some v => known.any (fun q => q = (fullPath, v))

/-- The dedup key scheduled for an unknown identity. -/
def resolvedKey (fullPath : List Char) (version : Option (List Char)) : FetchKey :=
  (fullPath, version.getD "latest".data)

/-- Modelled from the spec: the unit-serving path of the server (the handler
code is not under `src/`; only `serverTestCases` and `testServer` are).
An excluded identity gets 404 unconditionally with no fetch scheduling; a
malformed version gets 400 with the search fallback link; a known identity
gets 200; an unknown identity gets 404 immediately and schedules a
background fetch task for its key as the only side effect. -/
def serveUnit (excludedPrefixes : List (List Char)) (known : List FetchKey)
    (now : Nat) (tbl : TaskTable) (fullPath : List Char) (version : Option (List Char)) :
    HandleResult × TaskTable :=
  if isExcluded excludedPrefixes fullPath then (.notFound, tbl)
  else if versionOk version then
    if knownIdentity known fullPath version then (.ok, tbl)
    else (.notFound, schedule now tbl (resolvedKey fullPath version))
  else (.badRequest (searchLink fullPath), tbl)

/-- Claim C4: a request under an administratively excluded prefix returns
404 unconditionally (whatever the version, the known set, or the task
table) and never creates a fetch task: the task table is returned
unchanged. -/
theorem excluded_no_fetch (excl : List (List Char)) (known : List FetchKey)
    (now : Nat) (tbl : TaskTable) (fullPath : List Char) (version : Option (List Char))
    (h : isExcluded excl fullPath = true) :
    serveUnit excl known now tbl fullPath version = (.notFound, tbl) ∧
    statusOf (serveUnit excl known now tbl fullPath version).1 = 404 := by
  simp [serveUnit, h, statusOf]

/-- Witness for C4: the `excluded` row of `serverTestCases` — the path
`github.com/module/excluded/pkg` under the excluded prefix inserted by
`testServer` gets 404 and the empty task table stays empty. -/
theorem excluded_no_fetch_witness :
    serveUnit ["github.com/module/excluded".data] [] 0 []
      "github.com/module/excluded/pkg".data none = (.notFound, []) ∧
    statusOf (serveUnit ["github.com/module/excluded".data] [] 0 []
      "github.com/module/excluded/pkg".data none).1 = 404 :=
  excluded_no_fetch ["github.com/module/excluded".data] [] 0 []
    "github.com/module/excluded/pkg".data none (by decide)

/-- Claim C5: a well-formed request for an identity that is not yet known
and not excluded returns 404 in the same step (no blocking on fetch
completion) and leaves a task for the resolved key in Pending or Running
state in the task table. -/
theorem unknown_schedules (excl : List (List Char)) (known : List FetchKey)
    (now : Nat) (tbl : TaskTable) (fullPath : List Char) (version : Option (List Char))
    (hex : isExcluded excl fullPath = false)
    (hok : versionOk version = true)
    (hunk : knownIdentity known fullPath version = false)
    (hfresh : lookupTask tbl (resolvedKey fullPath version) = none) :
    statusOf (serveUnit excl known now tbl fullPath version).1 = 404 ∧
    ∃ t, lookupTask (serveUnit excl known now tbl fullPath version).2
        (resolvedKey fullPath version) = some t ∧
      (t.status = .pending ∨ t.status = .running) := by
  have hres : serveUnit excl known now tbl fullPath version =
      (.notFound, schedule now tbl (resolvedKey fullPath version)) := by
    simp [serveUnit, hex, hok, hunk]
  have hsched : schedule now tbl (resolvedKey fullPath version) =
      setTask tbl (resolvedKey fullPath version) ⟨.pending, 0, now⟩ := by
    simp [schedule, hfresh]
  refine ⟨by simp [hres, statusOf], ⟨.pending, 0, now⟩, ?_, Or.inl rfl⟩
  simp [hres, hsched, lookupTask_setTask_self]

/-- Witness for C5: the `path not found` row of `serverTestCases` — the
unknown path `example.com/unknown` gets 404 and leaves a Pending or Running
task for its key. -/
theorem unknown_schedules_witness :
    statusOf (serveUnit [] [] 0 [] "example.com/unknown".data none).1 = 404 ∧
    ∃ t, lookupTask (serveUnit [] [] 0 [] "example.com/unknown".data none).2
        (resolvedKey "example.com/unknown".data none) = some t ∧
      (t.status = .pending ∨ t.status = .running) :=
  unknown_schedules [] [] 0 [] "example.com/unknown".data none rfl rfl rfl rfl

/-- Claim C6: a request carrying a malformed version qualifier (and not
under an excluded prefix) resolves to BadRequest surfaced as HTTP 400, and
the response carries the suggested search-query fallback link composed from
the path — not a bare error; the task table is untouched. -/
theorem malformed_version_bad_request (excl : List (List Char)) (known : List FetchKey)
    (now : Nat) (tbl : TaskTable) (fullPath : List Char) (v : List Char)
    (hex : isExcluded excl fullPath = false)
    (hbad : isValidVersion v = false) :
    serveUnit excl known now tbl fullPath (some v) =
      (.badRequest (searchLink fullPath), tbl) ∧
    statusOf (serveUnit excl known now tbl fullPath (some v)).1 = 400 ∧
    searchLink fullPath = "/search?q=".data ++ escapePathQuery fullPath := by
  have hres : serveUnit excl known now tbl fullPath (some v) =
      (.badRequest (searchLink fullPath), tbl) := by
    simp [serveUnit, hex, versionOk, hbad]
  exact ⟨hres, by simp [hres, statusOf], rfl⟩

/-- Witness for C6: the `bad version` row of `serverTestCases` — version
`v1-2` on path `github.com/valid/module_name/foo` is malformed, yields 400,
and the fallback link is `/search?q=github.com%2fvalid%2fmodule_name%2ffoo`
exactly as the test's corrective-link checker demands. -/
theorem malformed_version_bad_request_witness :
    serveUnit [] [] 0 [] "github.com/valid/module_name/foo".data (some "v1-2".data) =
      (.badRequest "/search?q=github.com%2fvalid%2fmodule_name%2ffoo".data, []) ∧
    statusOf (serveUnit [] [] 0 [] "github.com/valid/module_name/foo".data
      (some "v1-2".data)).1 = 400 :=
  have h := malformed_version_bad_request [] [] 0 []
    "github.com/valid/module_name/foo".data "v1-2".data rfl (by decide)
  ⟨by rw [h.1]; decide, h.2.1⟩

/-! ## VersionResolver.Format for pseudo-versions -/

/-- The decimal digit character for `n % 10`. -/
def digitChar (n : Nat) : Char :=
  if n = 0 then '0' else if n = 1 then '1' else if n = 2 then '2' else if n = 3 then '3'
  else if n = 4 then '4' else if n = 5 then '5' else if n = 6 then '6' else if n = 7 then '7'
  else if n = 8 then '8' else '9'

theorem digitChar_ne_dot (n : Nat) : digitChar n ≠ '.' := by
  unfold digitChar
  repeat' split
  all_goals decide

/-- Decimal rendering of a natural number, fuel-structured so that it
reduces by evaluation. -/
def natCharsAux : Nat → Nat → List Char
  | 0, _ => []
  | fuel + 1, n =>
    if n < 10 then [digitChar n]
    else natCharsAux fuel (n / 10) ++ [digitChar (n % 10)]

/-- Decimal rendering of a natural number. -/
def natChars (n : Nat) : List Char := natCharsAux (n + 1) n

theorem natCharsAux_ne_dot (fuel : Nat) : ∀ n, ∀ c ∈ natCharsAux fuel n, c ≠ '.' := by
  induction fuel with
  | zero => intro n c hc; simp [natCharsAux] at hc
  | succ m ih =>
    intro n c hc
    rw [natCharsAux] at hc
    split at hc
    · simp at hc; subst hc; exact digitChar_ne_dot n
    · rw [List.mem_append] at hc
      rcases hc with hc | hc
      · exact ih (n / 10) c hc
      · simp at hc; subst hc; exact digitChar_ne_dot _

theorem natChars_ne_dot (n : Nat) : ∀ c ∈ natChars n, c ≠ '.' :=
  natCharsAux_ne_dot (n + 1) n

theorem natChars_ne_nil (n : Nat) : natChars n ≠ [] := by
  rw [natChars, natCharsAux]
  split
  · simp
  · simp

theorem natChars_head (n : Nat) : ∃ d t, natChars n = d :: t ∧ d ≠ '.' := by
  cases hne : natChars n with
  | nil => exact absurd hne (natChars_ne_nil n)
  | cons d t => exact ⟨d, t, rfl, natChars_ne_dot n d (by rw [hne]; simp)⟩

/-- The number of positions where three consecutive `.` characters start —
the count of `"..."` occurrences in a display string. -/
def tripleDotCount : List Char → Nat
  | c1 :: c2 :: c3 :: rest =>
      (if c1 = '.' ∧ c2 = '.' ∧ c3 = '.' then 1 else 0) + tripleDotCount (c2 :: c3 :: rest)
  | _ :: rest => tripleDotCount rest
  | [] => 0

theorem tdc_cons_ne (a : Char) (r : List Char) (h : a ≠ '.') :
    tripleDotCount (a :: r) = tripleDotCount r := by
  match r with
  | [] => simp [tripleDotCount]
  | [b] => simp [tripleDotCount]
  | b :: c :: r' => simp [tripleDotCount, h]

theorem tdc_cons_cons (c1 c2 : Char) (r : List Char) (h : c2 ≠ '.') :
    tripleDotCount (c1 :: c2 :: r) = tripleDotCount (c2 :: r) := by
  match r with
  | [] => simp [tripleDotCount]
  | c3 :: r' => simp [tripleDotCount, h]

theorem tdc_append_noDots (A B : List Char) (h : ∀ c ∈ A, c ≠ '.') :
    tripleDotCount (A ++ B) = tripleDotCount B := by
  induction A with
  | nil => simp
  | cons a A' ih =>
    rw [List.cons_append, tdc_cons_ne a _ (h a (by simp))]
    exact ih fun c hc => h c (by simp [hc])

theorem tdc_noDots (l : List Char) (h : ∀ c ∈ l, c ≠ '.') : tripleDotCount l = 0 := by
  have := tdc_append_noDots l [] h
  simpa [tripleDotCount] using this

theorem tdc_three_dots (c4 : Char) (r : List Char) (h4 : c4 ≠ '.')
    (hr : ∀ c ∈ r, c ≠ '.') : tripleDotCount ('.' :: '.' :: '.' :: c4 :: r) = 1 := by
  have e1 : tripleDotCount ('.' :: '.' :: '.' :: c4 :: r) =
      1 + tripleDotCount ('.' :: '.' :: c4 :: r) := by
    simp [tripleDotCount]
  have e2 : tripleDotCount ('.' :: '.' :: c4 :: r) = tripleDotCount ('.' :: c4 :: r) := by
    simp [tripleDotCount, h4]
  rw [e1, e2, tdc_cons_cons _ _ _ h4, tdc_cons_ne _ _ h4, tdc_noDots r hr]

/-- A parsed pseudo-version: base semantic triple, commit timestamp, and
commit hash, per the data model's `PseudoVersion(timestamp, shortHash)`. -/
structure PseudoVersion where
  major : Nat
  minor : Nat
  patch : Nat
  timestamp : List Char
  hash : List Char
deriving DecidableEq, Repr

/-- Modelled from the spec: `VersionResolver.Format` on a pseudo-version
(the formatting code is not under `src/`; only the expected
`FormattedVersion` values in `unitPageTestCases` are): render as
`vX.Y.Z-...-<first 7 hash chars>`. -/
def formatPseudo (pv : PseudoVersion) : List Char :=
  'v' :: (natChars pv.major ++ '.' :: (natChars pv.minor ++ '.' :: (natChars pv.patch ++
    '-' :: '.' :: '.' :: '.' :: '-' :: pv.hash.take 7)))

/-- Decimal digits to a natural number. -/
def charsToNat (l : List Char) : Nat :=
  l.foldl (fun acc c => acc * 10 + (c.toNat - 48)) 0

/-- Parse `vX.Y.Z` into a numeric triple. -/
def parseBaseTriple (b : List Char) : Option (Nat × Nat × Nat) :=
  match b with
  | 'v' :: rest =>
    match splitOnChar '.' rest with
    | [x, y, z] =>
      if !x.isEmpty && x.all Char.isDigit && !y.isEmpty && y.all Char.isDigit
          && !z.isEmpty && z.all Char.isDigit then
        some (charsToNat x, charsToNat y, charsToNat z)
      else none
    | _ => none
  | _ => none

/-- Parse a pseudo-version string `vX.Y.Z-<timestamp>-<hash>` into its
components. -/
def parsePseudoVersion (s : List Char) : Option PseudoVersion :=
  match splitOnChar '-' s with
  | [b, ts, hash] =>
    match parseBaseTriple b with
    | some (x, y, z) =>
      if !ts.isEmpty && ts.all Char.isDigit && !hash.isEmpty then
        some ⟨x, y, z, ts, hash⟩
      else none
    | none => none
  | _ => none

/-- Claim C7: for every pseudo-version whose hash contains no dots and has
at least 7 characters, `Format` produces a display string with exactly one
`"..."` elided middle segment and a suffix that is exactly the first 7 hash
characters; the closed final conjunct checks the `pseudoVersion` constant of
`server_test.go` (`v0.0.0-20140414041502-123456789012`, hash length 12)
against the expected display `v0.0.0-...-1234567` of `unitPageTestCases`. -/
theorem formatPseudo_elides (pv : PseudoVersion)
    (hdot : ∀ c ∈ pv.hash, c ≠ '.') (hlen : 7 ≤ pv.hash.length) :
    tripleDotCount (formatPseudo pv) = 1 ∧
    (∃ pre, formatPseudo pv = pre ++ pv.hash.take 7) ∧
    (pv.hash.take 7).length = 7 ∧
    (parsePseudoVersion "v0.0.0-20140414041502-123456789012".data).map formatPseudo =
      some "v0.0.0-...-1234567".data := by
  obtain ⟨d1, t1, h1, hd1⟩ := natChars_head pv.minor
  obtain ⟨d2, t2, h2, hd2⟩ := natChars_head pv.patch
  have htake : ∀ c ∈ pv.hash.take 7, c ≠ '.' := fun c hc => hdot c (List.take_subset 7 _ hc)
  refine ⟨?_, ⟨'v' :: (natChars pv.major ++ '.' :: (natChars pv.minor ++ '.' ::
      (natChars pv.patch ++ ['-', '.', '.', '.', '-']))), by simp [formatPseudo]⟩,
    by simp [List.length_take]; omega, by decide⟩
  rw [formatPseudo, tdc_cons_ne 'v' _ (by decide),
    tdc_append_noDots _ _ (natChars_ne_dot pv.major), h1, List.cons_append,
    tdc_cons_cons _ _ _ hd1, ← List.cons_append, ← h1,
    tdc_append_noDots _ _ (natChars_ne_dot pv.minor), h2, List.cons_append,
    tdc_cons_cons _ _ _ hd2, ← List.cons_append, ← h2,
    tdc_append_noDots _ _ (natChars_ne_dot pv.patch),
    tdc_cons_ne '-' _ (by decide)]
  exact tdc_three_dots '-' _ (by decide) htake

/-- Witness for C7: the format property at the concrete test pseudo-version
`v0.0.0-20140414041502-123456789012`. -/
theorem formatPseudo_elides_witness :
    tripleDotCount (formatPseudo ⟨0, 0, 0, "20140414041502".data, "123456789012".data⟩) = 1 ∧
    (∃ pre, formatPseudo ⟨0, 0, 0, "20140414041502".data, "123456789012".data⟩ =
      pre ++ ("123456789012".data).take 7) ∧
    (("123456789012".data).take 7).length = 7 ∧
    (parsePseudoVersion "v0.0.0-20140414041502-123456789012".data).map formatPseudo =
      some "v0.0.0-...-1234567".data :=
  formatPseudo_elides ⟨0, 0, 0, "20140414041502".data, "123456789012".data⟩
    (by decide) (by decide)

/-! ## frontend.Client.GetVersions (client.go) -/

/-- The versions-listing JSON document returned by the `?m=json` variant,
abstracted to the list of known versions it carries. -/
structure VersionsDetails where
  versions : List String
deriving DecidableEq, Repr

/-- An HTTP response as `GetVersions` consumes it: the status code, and the
result of reading the body (`ioutil.ReadAll` may fail). -/
structure HTTPResult where
  statusCode : Nat
  body : Except String String
deriving Repr

/-- The URL built by `GetVersions`:
`fmt.Sprintf("%s/%s?tab=versions&m=json", c.url, pkgPath)`. -/
def versionsURL (url pkgPath : String) : String :=
  url ++ "/" ++ pkgPath ++ "?tab=versions&m=json"

/-- `frontend.Client.GetVersions` from `client.go`, with the HTTP transport
(`httpClient.Get` plus body read) and `json.Unmarshal` as explicit
collaborators: transport error → error; status not 200 → error carrying the
status; body-read error → error; unmarshal error → error; otherwise the
parsed `VersionsDetails`. -/
def GetVersions (get : String → Except String HTTPResult)
    (unmarshal : String → Except String VersionsDetails)
    (url pkgPath : String) : Except String VersionsDetails :=
  match get (versionsURL url pkgPath) with
  | .error e => .error e
  | .ok r =>
    if r.statusCode ≠ 200 then .error ("status " ++ toString r.statusCode)
    else
      match r.body with
      | .error e => .error e
      | .ok body =>
        match unmarshal body with
        | .error e => .error ("json.Unmarshal: " ++ e)
        | .ok vd => .ok vd

/-- Claim C9: `GetVersions(pkgPath)` issues GET on
`<url>/<pkgPath>?tab=versions&m=json` and returns a parsed
`VersionsDetails` exactly when the response status is 200 and the body
reads and unmarshals as JSON; every non-200 status and every unmarshal
failure yields an error instead. -/
theorem GetVersions_spec (get : String → Except String HTTPResult)
    (unmarshal : String → Except String VersionsDetails) (url pkgPath : String) :
    (∀ vd, GetVersions get unmarshal url pkgPath = .ok vd ↔
      ∃ r body, get (url ++ "/" ++ pkgPath ++ "?tab=versions&m=json") = .ok r ∧
        r.statusCode = 200 ∧ r.body = .ok body ∧ unmarshal body = .ok vd) ∧
    (∀ r, get (versionsURL url pkgPath) = .ok r → r.statusCode ≠ 200 →
      ∃ e, GetVersions get unmarshal url pkgPath = .error e) ∧
    (∀ r body e, get (versionsURL url pkgPath) = .ok r → r.statusCode = 200 →
      r.body = .ok body → unmarshal body = .error e →
      ∃ e2, GetVersions get unmarshal url pkgPath = .error e2) := by
  refine ⟨?_, ?_, ?_⟩
  · intro vd
    rw [show url ++ "/" ++ pkgPath ++ "?tab=versions&m=json" = versionsURL url pkgPath from rfl]
    cases hg : get (versionsURL url pkgPath) with
    | error e => simp [GetVersions, hg]
    | ok r =>
      by_cases hs : r.statusCode = 200
      · cases hb : r.body with
        | error e => simp [GetVersions, hg, hs, hb]
        | ok body =>
          cases hu : unmarshal body with
          | error e => simp [GetVersions, hg, hs, hb, hu]
          | ok vd2 => simp [GetVersions, hg, hs, hb, hu, eq_comm]
      · simp [GetVersions, hg, hs]
  · intro r hg hs
    exact ⟨"status " ++ toString r.statusCode, by simp [GetVersions, hg, hs]⟩
  · intro r body e hg hs hb hu
    exact ⟨"json.Unmarshal: " ++ e, by simp [GetVersions, hg, hs, hb, hu]⟩

/-- Witness for C9: a transport returning status 200 with body `"b"` and an
unmarshaller wrapping the body yields exactly the parsed document. -/
theorem GetVersions_spec_witness :
    GetVersions (fun _ => Except.ok ⟨200, Except.ok "b"⟩)
      (fun s => Except.ok ⟨[s]⟩) "http://host" "pkg" = Except.ok ⟨["b"]⟩ :=
  ((GetVersions_spec (fun _ => Except.ok ⟨200, Except.ok "b"⟩)
      (fun s => Except.ok ⟨[s]⟩) "http://host" "pkg").1 ⟨["b"]⟩).mpr
    ⟨⟨200, Except.ok "b"⟩, "b", rfl, rfl, rfl, rfl⟩
